import Mathlib

/-!
Verification development for the DNS cache tool (`dns_cache_tool.py`).

The Python source is shallowly embedded below.  External I/O (the OS-level
`socket.gethostbyname` call, the protocol-level `dns.resolver` query, the
page fetch inside `get_links_from_domain`, and wall-clock readings) is
passed in explicitly as oracle values describing the outcome of each call,
so that every function of the embedding is a total, executable Lean
function.  Exceptions that the Python code lets escape are modelled with
`Option`/`Except`; exceptions the Python code catches are modelled by the
corresponding `Except` branch of the oracle.

The concurrent crawl loop (`DNSCacheTool.collect_domains` together with the
worker body `DNSCacheTool.process_domain`) is embedded as a small-step
transition system: the coordinator dispatches a batch of workers and waits
for all of them (the `future.result()` barrier), and while a batch is live
the workers' atomic actions interleave arbitrarily.  Each worker action
corresponds to one GIL-atomic region of the Python worker body.
-/

set_option maxHeartbeats 1000000

namespace DNSCache

abbrev Domain := String

/-- The result dictionary built by `DNSCacheTool.query_dns` and by
`get_links_from_domain` (keys `domain`, `success`, `ip_addresses`,
`timestamp`, `error`). -/
structure ResolutionResult where
  domain : Domain
  success : Bool
  ip_addresses : List String
  timestamp : ℚ
  error : Option String
deriving DecidableEq

/-- The `self.dns_results` mapping (`dict` keyed by domain). -/
abbrev Store := Domain → Option ResolutionResult

/-- A single `self.dns_results[domain] = result` assignment. -/
def storeUpdate (m : Store) (d : Domain) (r : ResolutionResult) : Store :=
  fun x => if x = d then some r else m x

/-- The store right after `self.dns_results = {}`. -/
def emptyStore : Store := fun _ => none

/-- `DNSCacheTool.query_dns` (dns_cache_tool.py lines 744-785), with the two
underlying lookup stages given by their outcomes: `gethostbyname` is the
OS-level `socket.gethostbyname(domain)` call, which returns a single address
string or raises (the `Except.error` carries `str(socket_error)`);
`resolve_A` is the `dns.resolver` A-record query, which returns the list of
answers in order or raises (`str(dns_error)`).  The returned record is the
result the Python code stores into `self.dns_results[domain]`.  The Python
guard `if not result['error']` treats the empty string as falsy, hence the
`socket_error = ""` test in the both-fail branch. -/
def query_dns (domain : Domain) (ts : ℚ)
    (gethostbyname : Except String String)
    (resolve_A : Except String (List String)) : ResolutionResult :=
  match gethostbyname with
  | .ok ip => ⟨domain, true, [ip], ts, none⟩
  | .error socket_error =>
    match resolve_A with
    | .ok answers => ⟨domain, true, answers, ts, none⟩
    | .error dns_error =>
      ⟨domain, false, [], ts,
        some (if socket_error = "" then dns_error else socket_error)⟩

/-- State of a `DNSRateLimiter` object: the configured
`queries_per_second` and the `query_times` list. -/
structure DNSRateLimiter where
  queries_per_second : Int
  query_times : List ℚ
deriving DecidableEq

/-- `DNSRateLimiter.__init__` (lines 25-28): the constructor stores
`queries_per_second` unvalidated and starts with an empty list. -/
def mkRateLimiter (qps : Int) : DNSRateLimiter := ⟨qps, []⟩

/-- `DNSRateLimiter.wait_if_needed` (lines 30-45).  `now` is the first
`time.time()` reading, `now2` the second one (after any sleep).  The value
`none` models the uncaught `IndexError` raised by `self.query_times[0]`
when the pruned list is empty; otherwise the call returns the updated
limiter state together with the duration slept. -/
def wait_if_needed (rl : DNSRateLimiter) (now now2 : ℚ) :
    Option (DNSRateLimiter × ℚ) :=
  let pruned := rl.query_times.filter (fun t => now - t < 1)
  if rl.queries_per_second ≤ (pruned.length : Int) then
    match pruned.head? with
    | none => none
    | some t0 =>
      let sleep_time := 1 - (now - t0)
      some (⟨rl.queries_per_second, pruned ++ [now2]⟩,
            if 0 < sleep_time then sleep_time else 0)
  else
    some (⟨rl.queries_per_second, pruned ++ [now2]⟩, 0)

/-! ## The crawl engine (`collect_domains` / `process_domain`) -/

/-- Outcomes of the external calls made inside `get_links_from_domain` for
each domain: `fetch d` is the `requests.get` + parsing of `http://d`
(success carries the extracted link set, error carries `str(e)`);
`gethost d` is the `socket.gethostbyname(d)` reading taken after a
successful fetch (`none` means that call raised and the code passes);
`ts d` is the `time.time()` value used for the stored record. -/
structure FetchEnv where
  fetch : Domain → Except String (Finset Domain)
  gethost : Domain → Option String
  ts : Domain → ℚ

/-- The link set `get_links_from_domain` returns: the extracted links on
success, the empty set when the fetch raised (the function catches its own
exception and returns the still-empty `links` set). -/
def linksOf (env : FetchEnv) (d : Domain) : Finset Domain :=
  match env.fetch d with
  | .ok links => links
  | .error _ => ∅

/-- The `self.dns_results` update performed inside `get_links_from_domain`:
on fetch success a success record is stored when the extra
`gethostbyname` reading succeeds; on fetch failure a failure record with
`str(e)` is stored. -/
def fetchRecord (env : FetchEnv) (d : Domain) (m : Store) : Store :=
  match env.fetch d with
  | .ok _ =>
    match env.gethost d with
    | some ip => storeUpdate m d ⟨d, true, [ip], env.ts d, none⟩
    | none => m
  | .error e => storeUpdate m d ⟨d, false, [], env.ts d, some e⟩

/-- The shared mutable state of `DNSCacheTool` during a crawl:
`domains_to_visit`, `visited_domains`, `collected_domains`,
`dns_results`, plus the ghost field `bodyCount` counting how many times
the body of `process_domain` (everything past the
`if domain in self.visited_domains: return` guard) has been entered for
each domain. -/
structure CrawlState where
  toVisit : Finset Domain
  visited : Finset Domain
  collected : Finset Domain
  dns_results : Store
  bodyCount : Domain → ℕ

/-- Control position of one worker executing `process_domain`:
`atCheck` before the visited-membership guard; `toBody` after passing the
guard but before the `visited_domains.add` line (the race window);
`atLock links` after the visited-insert and the fetch, holding the
fetched link set, about to enter the `with self.lock` section;
`finished` after returning. -/
inductive WStatus
  | atCheck
  | toBody
  | atLock (links : Finset Domain)
  | finished
deriving DecidableEq

/-- One worker of the crawl pool: the domain it was dispatched and its
control position. -/
structure Worker where
  dom : Domain
  status : WStatus
deriving DecidableEq

/-- A configuration of the crawl: the shared state plus the workers of the
currently live batch. -/
structure Config where
  cs : CrawlState
  workers : List Worker

/-- Effect of the GIL-atomic region `self.visited_domains.add(domain)`
followed by the fetch of `get_links_from_domain` (whose only shared-state
write is `self.dns_results[domain]`, a key no other live worker touches):
the domain is marked visited, the fetch record is stored, and the ghost
body counter is bumped. -/
def bodyEnter (env : FetchEnv) (cs : CrawlState) (d : Domain) : CrawlState :=
  { cs with
      visited := insert d cs.visited
      dns_results := fetchRecord env d cs.dns_results
      bodyCount := fun x => if x = d then cs.bodyCount x + 1 else cs.bodyCount x }

/-- Effect of the `with self.lock` section of `process_domain`: add the
domain to `collected_domains` and merge the newly discovered links that are
not in `visited_domains` at this very moment into `domains_to_visit`. -/
def lockSection (cs : CrawlState) (d : Domain) (links : Finset Domain) : CrawlState :=
  { cs with
      collected := insert d cs.collected
      toVisit := cs.toVisit ∪ links.filter (fun l => l ∉ cs.visited) }

/-- One atomic step of worker `i` (no-op when `i` is out of range or the
worker already returned).  The three live positions correspond to the
three GIL-atomic shared-state regions of `process_domain`. -/
def workerStep (env : FetchEnv) (c : Config) (i : ℕ) : Config :=
  match c.workers[i]? with
  | none => c
  | some w =>
    match w.status with
    | .atCheck =>
      if w.dom ∈ c.cs.visited then
        { c with workers := c.workers.set i ⟨w.dom, .finished⟩ }
      else
        { c with workers := c.workers.set i ⟨w.dom, .toBody⟩ }
    | .toBody =>
      { cs := bodyEnter env c.cs w.dom
        workers := c.workers.set i ⟨w.dom, .atLock (linksOf env w.dom)⟩ }
    | .atLock links =>
      { cs := lockSection c.cs w.dom links
        workers := c.workers.set i ⟨w.dom, .finished⟩ }
    | .finished => c

/-- The coordinator's batch formation in `collect_domains`: pop the chosen
batch out of `domains_to_visit` and submit one worker per popped domain. -/
def dispatchStep (c : Config) (nb : List Domain) : Config :=
  { cs := { c.cs with toVisit := c.cs.toVisit \ nb.toFinset }
    workers := nb.map (fun d => ⟨d, .atCheck⟩) }

/-- All futures of the current batch have completed (the
`for future in futures: future.result()` barrier). -/
def allFinished (c : Config) : Prop := ∀ w ∈ c.workers, w.status = .finished

/-- The state right after the resets at the top of `collect_domains`:
`visited_domains = set()`, `domains_to_visit = {start_domain}`,
`collected_domains = set()`, `dns_results = {}`, and no batch live yet. -/
def initConfig (start : Domain) : Config :=
  { cs := ⟨{start}, ∅, ∅, emptyStore, fun _ => 0⟩, workers := [] }

/-- Transitions of the crawl: an arbitrary worker of the live batch takes
its next atomic step, or — when every worker of the previous batch has
completed and the loop condition still holds — the coordinator pops a new
batch (distinct domains taken from `domains_to_visit`, of size
`min(collect_threads * 2, len(domains_to_visit))`) and dispatches it. -/
inductive Step (env : FetchEnv) (target threads : ℕ) : Config → Config → Prop
  | worker (c : Config) (i : ℕ) : Step env target threads c (workerStep env c i)
  | dispatch (c : Config) (nb : List Domain)
      (hdone : allFinished c)
      (hne : c.cs.toVisit.Nonempty)
      (htar : c.cs.collected.card < target)
      (hnodup : nb.Nodup)
      (hsub : ∀ d ∈ nb, d ∈ c.cs.toVisit)
      (hlen : nb.length = min (2 * threads) c.cs.toVisit.card) :
      Step env target threads c (dispatchStep c nb)

/-- Configurations reachable during one run of `collect_domains`. -/
inductive Reach (env : FetchEnv) (target threads : ℕ) (start : Domain) :
    Config → Prop
  | init : Reach env target threads start (initConfig start)
  | step {c c' : Config} : Reach env target threads start c →
      Step env target threads c c' → Reach env target threads start c'

/-- Workers at distinct indices of the live batch hold distinct domains
(batches are popped from the set `domains_to_visit`). -/
def DistinctDoms (l : List Worker) : Prop :=
  ∀ (i j : ℕ) (hi : i < l.length) (hj : j < l.length), i ≠ j →
    l[i].dom ≠ l[j].dom

/-- The inductive invariant of the crawl transition system. -/
def Inv (c : Config) : Prop :=
  DistinctDoms c.workers ∧
  c.cs.collected ⊆ c.cs.visited ∧
  (∀ d, c.cs.bodyCount d ≤ 1) ∧
  (∀ d, d ∈ c.cs.visited ↔ 1 ≤ c.cs.bodyCount d) ∧
  (∀ (i : ℕ) (hi : i < c.workers.length),
      c.workers[i].status = .toBody → c.workers[i].dom ∉ c.cs.visited) ∧
  (∀ (i : ℕ) (hi : i < c.workers.length) (links : Finset Domain),
      c.workers[i].status = .atLock links → c.workers[i].dom ∈ c.cs.visited)

/-! ## Concrete crawl run used as a witness/failing input.

The seed `"a"` is dispatched alone and its page fetch raises (connection
error `"boom"`); the worker then runs to completion. -/

/-- Environment in which every page fetch raises with message `"boom"`. -/
def env0 : FetchEnv := ⟨fun _ => .error "boom", fun _ => none, fun _ => 0⟩

def cfg0 : Config := initConfig "a"

def cfg1 : Config := dispatchStep cfg0 ["a"]

def cfg2 : Config := workerStep env0 cfg1 0

def cfg3 : Config := workerStep env0 cfg2 0

def cfg4 : Config := workerStep env0 cfg3 0

/-! ## The batch resolver (`batch_query_dns`) -/

/-- The batch partition produced by
`for i in range(0, len(domains_list), batch_size)` together with
`domains_list[i:i+batch_size]`. -/
def chunks (n : ℕ) : List Domain → List (List Domain)
  | [] => []
  | a :: l => (a :: l.take (n - 1)) :: chunks n (l.drop (n - 1))
termination_by l => l.length
decreasing_by simp [List.length_drop]; omega

/-- Processing of one batch inside `batch_query_dns`: every domain of the
batch is queried (each `query_dns` call stores its result under its own
key, so the concurrent in-batch execution is equivalent to this fold), the
per-batch success flags are summed onto the running `success_count`.
`resolver d` is the `ResolutionResult` that `query_dns` builds and stores
for `d`; the flag `query_dns` returns is its `success` field. -/
def runBatch (resolver : Domain → ResolutionResult) (acc : ℕ × Store)
    (batch : List Domain) : ℕ × Store :=
  (acc.1 + (batch.filter (fun d => (resolver d).success)).length,
   batch.foldl (fun m d => storeUpdate m d (resolver d)) acc.2)

/-- Return value and final `self.dns_results` state of
`DNSCacheTool.batch_query_dns` (lines 866-917).  `returned` is the third
component of the Python return tuple (`None` on the early
`return 0, 0, None` for an empty domain collection — note that this early
return happens before the `self.dns_results = {}` reset, so `dns_results`
keeps its previous contents in that case). -/
structure BatchOutcome where
  success_count : ℕ
  total_count : ℕ
  returned : Option Store
  dns_results : Store

/-- `DNSCacheTool.batch_query_dns`: `prev` is the `self.dns_results`
content left over from any earlier run, `domains` the (duplicate-free)
domain collection to query, `batchSize` the configured `BatchSize`. -/
def batch_query_dns (prev : Store) (domains : List Domain) (batchSize : ℕ)
    (resolver : Domain → ResolutionResult) : BatchOutcome :=
  if domains.isEmpty then ⟨0, 0, none, prev⟩
  else
    let r := (chunks batchSize domains).foldl (runBatch resolver) (0, emptyStore)
    ⟨r.1, domains.length, some r.2, r.2⟩

/-- Resolver behaviour of the C7 scenario: `"a"` and `"b"` succeed,
`"c"` fails. -/
def res3 : Domain → ResolutionResult := fun d =>
  if d = "c" then ⟨d, false, [], 0, some "err"⟩
  else ⟨d, true, ["1.2.3.4"], 0, none⟩

/-- A leftover result store from a previous run, holding one entry. -/
def prevStore : Store := storeUpdate emptyStore "x" ⟨"x", true, ["9.9.9.9"], 0, none⟩

/-! ## The tuning harness (`DNSPerformanceTester`) -/

/-- One entry of the `test_result` dictionaries built by
`DNSPerformanceTester.test_parameter` — the fields that
`run_tests` consumes. -/
structure TrialResult where
  param_value : ℚ
  queries_per_second : ℚ
  success_rate : ℚ
deriving DecidableEq

/-- The ranking key used in `run_tests`:
`x.get('queries_per_second', 0) * x.get('success_rate', 0)`. -/
def score (t : TrialResult) : ℚ := t.queries_per_second * t.success_rate

/-- Python's builtin `max(x :: xs, key)`: it keeps the current best and
replaces it only on a strictly larger key, so ties resolve to the earliest
element. -/
def pymax (key : TrialResult → ℚ) (x : TrialResult) (xs : List TrialResult) :
    TrialResult :=
  xs.foldl (fun b a => if key b < key a then a else b) x

/-- A parameter assignment (`self.default_params`). -/
abbrev Params := String → ℚ

/-- `test_params[param_name] = param_value`. -/
def updateParam (p : Params) (name : String) (v : ℚ) : Params :=
  fun x => if x = name then v else p x

/-- `DNSPerformanceTester.test_parameter` (lines 339-415): build the trial
configuration from the current defaults with one override and run the
benchmark under it.  The benchmark outcome is the oracle
`trial : Params → ℚ × ℚ`, returning the measured
`(queries_per_second, success_rate)` of a run under the given full
parameter set. -/
def test_parameter (trial : Params → ℚ × ℚ) (base : Params) (name : String)
    (v : ℚ) : TrialResult :=
  ⟨v, (trial (updateParam base name v)).1, (trial (updateParam base name v)).2⟩

/-- The per-parameter stage of `run_tests`: score every candidate value and
commit the arg-max candidate into `default_params` before the next
parameter is handled. -/
def select_best (trial : Params → ℚ × ℚ) (base : Params) (name : String)
    (values : List ℚ) : Params :=
  match values.map (test_parameter trial base name) with
  | [] => base
  | r :: rs => updateParam base name (pymax score r rs).param_value

/-- `DNSPerformanceTester.run_tests` (lines 417-446): greedy coordinate
ascent over the configured parameter ranges, one parameter at a time. -/
def run_tests (trial : Params → ℚ × ℚ) (ranges : List (String × List ℚ))
    (base : Params) : Params :=
  ranges.foldl (fun b pr => select_best trial b pr.1 pr.2) base

/-- Trial oracle for the C9 witness: throughput equals the value of
parameter `"p"` in the trial configuration, success rate is 1, so larger
candidate values always score higher. -/
def trial0 : Params → ℚ × ℚ := fun tp => (tp "p", 1)

/-- Base parameter assignment for the C9 witness. -/
def base0 : Params := fun _ => 0

/-! ## Concrete two-batch crawl run exhibiting the pop/insert race.

Seed `"s"` links to `"a"` and `"b"`; `"b"` links back to `"a"`.  In the
second batch the worker for `"b"` merges its links while the worker for
`"a"` has passed the guard but not yet executed `visited_domains.add`, so
`"a"` re-enters `domains_to_visit` and is later popped and submitted to
`process_domain` a second time (where the guard then stops it). -/

/-- Fetch environment of the race run. -/
def env1 : FetchEnv :=
  ⟨fun d => if d = "s" then .ok {"a", "b"} else if d = "b" then .ok {"a"} else .ok ∅,
   fun _ => none, fun _ => 0⟩

def ecfg0 : Config := initConfig "s"

def ecfg1 : Config := dispatchStep ecfg0 ["s"]

def ecfg2 : Config := workerStep env1 ecfg1 0

def ecfg3 : Config := workerStep env1 ecfg2 0

def ecfg4 : Config := workerStep env1 ecfg3 0

def ecfg5 : Config := dispatchStep ecfg4 ["a", "b"]

def ecfg6 : Config := workerStep env1 ecfg5 0

def ecfg7 : Config := workerStep env1 ecfg6 1

def ecfg8 : Config := workerStep env1 ecfg7 1

def ecfg9 : Config := workerStep env1 ecfg8 1

def ecfg10 : Config := workerStep env1 ecfg9 0

def ecfg11 : Config := workerStep env1 ecfg10 0

def ecfg12 : Config := dispatchStep ecfg11 ["a"]

def ecfg13 : Config := workerStep env1 ecfg12 0

/-! # Theorems -/

/-! ## Resolver (`query_dns`): claims C4, C5, C10 -/

/-- C4 counterexample: when both lookup stages raise exceptions whose
string form is empty (e.g. `raise socket.gaierror()` with no arguments),
the stored result has `success = false` but its error string is the empty
string — not a non-empty one as the claim requires. -/
theorem query_dns_empty_error_counterexample :
    (query_dns "example.com" 0 (.error "") (.error "")).success = false ∧
    (query_dns "example.com" 0 (.error "") (.error "")).error = some "" :=
  ⟨rfl, rfl⟩

/-- C4 (amended): `query_dns` converts every pair of stage behaviours into
a stored `ResolutionResult` without propagating an exception; whenever the
stored result has `success = false` it carries an error string (so
`error ≠ none`); when both stages fail, the recorded error is the fast-path
(socket) error whenever that string is non-empty, and the fallback stage's
error otherwise — so the recorded string is empty exactly when both
exception messages are empty. -/
theorem query_dns_error_conversion (d : Domain) (ts : ℚ) (e1 e2 : String)
    (fast : Except String String) (fb : Except String (List String)) :
    (query_dns d ts (.error e1) (.error e2)).success = false ∧
    (query_dns d ts (.error e1) (.error e2)).error =
      some (if e1 = "" then e2 else e1) ∧
    (e1 ≠ "" → (query_dns d ts (.error e1) (.error e2)).error = some e1) ∧
    (e1 = "" → (query_dns d ts (.error e1) (.error e2)).error = some e2) ∧
    ((query_dns d ts (.error e1) (.error e2)).error = some "" ↔
      e1 = "" ∧ e2 = "") ∧
    ((query_dns d ts fast fb).success = false →
      (query_dns d ts fast fb).error ≠ none) := by
  refine ⟨rfl, rfl, ?_, ?_, ?_, ?_⟩
  · intro h1
    simp [query_dns, h1]
  · intro h1
    simp [query_dns, h1]
  · by_cases h1 : e1 = ""
    · simp [query_dns, h1]
    · simp [query_dns, h1]
  · intro hfail
    cases fast with
    | ok ip => simp [query_dns] at hfail
    | error s =>
      cases fb with
      | ok answers => simp [query_dns] at hfail
      | error s2 => simp [query_dns]

/-- Witness for `query_dns_error_conversion`, discharging both inner
hypotheses: an empty socket error with a non-empty resolver error stores
the resolver error, and a non-empty socket error is kept over the resolver
error. -/
theorem query_dns_error_conversion_witness :
    ("" : String) = "" ∧ ("socket fail" : String) ≠ "" ∧
    (query_dns "d" 0 (.error "") (.error "dns fail")).error
      = some "dns fail" ∧
    (query_dns "d" 0 (.error "socket fail") (.error "dns fail")).error
      = some "socket fail" :=
  ⟨rfl, by decide,
   (query_dns_error_conversion "d" 0 "" "dns fail"
      (.error "") (.error "dns fail")).2.2.2.1 rfl,
   (query_dns_error_conversion "d" 0 "socket fail" "dns fail"
      (.error "socket fail") (.error "dns fail")).2.2.1 (by decide)⟩

/-- C5: the fast OS-level lookup is tried first and the protocol-level
fallback is consulted exactly when the fast path fails: on fast-path
success the result does not depend on the fallback behaviour at all and is
`success = true` with exactly the fast path's address list; on fast-path
failure with a fallback returning a list of addresses, the result is
`success = true` with all of those addresses, in the fallback's order. -/
theorem query_dns_fast_first_fallback_on_failure (d : Domain) (ts : ℚ)
    (ip e : String) (addrs : List String)
    (fb fb1 fb2 : Except String (List String)) :
    query_dns d ts (.ok ip) fb1 = query_dns d ts (.ok ip) fb2 ∧
    (query_dns d ts (.ok ip) fb).success = true ∧
    (query_dns d ts (.ok ip) fb).ip_addresses = [ip] ∧
    (query_dns d ts (.error e) (.ok addrs)).success = true ∧
    (query_dns d ts (.error e) (.ok addrs)).ip_addresses = addrs :=
  ⟨rfl, rfl, rfl, rfl, rfl⟩

/-- C10: on fast-path success the stored address sequence is exactly the
one address `socket.gethostbyname` returned (length one); consequently any
stored result with two or more addresses can only have been produced by the
fallback stage. -/
theorem fast_path_stores_single_address (d : Domain) (ts : ℚ) (ip : String)
    (fast : Except String String) (fb : Except String (List String))
    (h2 : 2 ≤ (query_dns d ts fast fb).ip_addresses.length) :
    (∀ fb', (query_dns d ts (.ok ip) fb').ip_addresses.length = 1) ∧
    ∃ e addrs, fast = .error e ∧ fb = .ok addrs ∧
      (query_dns d ts fast fb).ip_addresses = addrs := by
  refine ⟨fun fb' => rfl, ?_⟩
  cases fast with
  | ok ip2 => simp [query_dns] at h2
  | error e =>
    cases fb with
    | ok answers => exact ⟨e, answers, rfl, rfl, rfl⟩
    | error e2 => simp [query_dns] at h2

/-- Witness for `fast_path_stores_single_address`: a failing fast path with
a two-address fallback yields a two-address stored result. -/
theorem fast_path_stores_single_address_witness :
    2 ≤ (query_dns "d" 0 (.error "x") (.ok ["1.1.1.1", "2.2.2.2"])).ip_addresses.length ∧
    ∃ e addrs, (Except.error "x" : Except String String) = .error e ∧
      (Except.ok ["1.1.1.1", "2.2.2.2"] : Except String (List String)) = .ok addrs ∧
      (query_dns "d" 0 (.error "x") (.ok ["1.1.1.1", "2.2.2.2"])).ip_addresses = addrs :=
  ⟨by decide,
   (fast_path_stores_single_address "d" 0 "1.2.3.4" (.error "x")
      (.ok ["1.1.1.1", "2.2.2.2"]) (by decide)).2⟩

/-! ## Rate limiter: claim C6 -/

/-- C6: `DNSRateLimiter` performs no construction-time validation, and with
`queries_per_second ≤ 0` the very first `wait_if_needed` call reaches
`self.query_times[0]` on the just-pruned empty list and raises an
IndexError (modelled by `none`) instead of returning normally. -/
theorem rate_limiter_nonpositive_qps_crashes :
    mkRateLimiter 0 = ⟨0, []⟩ ∧
    mkRateLimiter (-3) = ⟨-3, []⟩ ∧
    wait_if_needed (mkRateLimiter 0) 5 5 = none ∧
    wait_if_needed (mkRateLimiter (-3)) 5 5 = none ∧
    wait_if_needed (mkRateLimiter 1) 5 5 =
      some (⟨1, [5]⟩, 0) := by
  refine ⟨rfl, rfl, ?_, ?_, ?_⟩ <;> simp [wait_if_needed, mkRateLimiter]

/-! ## Batch resolver (`batch_query_dns`): claims C7, C8 -/

/-- The batches produced by the slicing loop concatenate back to the input
list: the batch partition loses and duplicates nothing. -/
theorem chunks_flatten (n : ℕ) (l : List Domain) : (chunks n l).flatten = l := by
  induction l using chunks.induct n with
  | case1 => simp [chunks]
  | case2 a l ih =>
    simp only [chunks, List.flatten_cons, ih]
    simp [List.take_append_drop]

/-- Every batch produced by the slicing loop has at most `n` domains
(for a positive batch size). -/
theorem chunks_length_le (n : ℕ) (hn : 0 < n) (l : List Domain) :
    ∀ ch ∈ chunks n l, ch.length ≤ n := by
  induction l using chunks.induct n with
  | case1 => simp [chunks]
  | case2 a l ih =>
    intro ch hch
    simp only [chunks, List.mem_cons] at hch
    rcases hch with rfl | hch
    · simp only [List.length_cons, List.length_take]
      omega
    · exact ih ch hch

/-- Folding `runBatch` over a batch list is the same as processing the
concatenation of the batches: the success flags sum to the number of
successful domains and the store updates compose in order. -/
theorem foldl_runBatch (resolver : Domain → ResolutionResult)
    (chs : List (List Domain)) (acc : ℕ × Store) :
    chs.foldl (runBatch resolver) acc =
      (acc.1 + (chs.flatten.filter (fun d => (resolver d).success)).length,
       chs.flatten.foldl (fun m d => storeUpdate m d (resolver d)) acc.2) := by
  induction chs generalizing acc with
  | nil => simp
  | cons ch chs ih =>
    simp only [List.foldl_cons, List.flatten_cons, ih, runBatch,
      List.filter_append, List.length_append, List.foldl_append,
      Prod.mk.injEq]
    exact ⟨by omega, trivial⟩

/-- Evaluating the store built by a fold of `storeUpdate` assignments:
a queried domain maps to its resolver result, anything else keeps the
initial binding. -/
theorem storeFold_eval (resolver : Domain → ResolutionResult)
    (l : List Domain) (m : Store) (d : Domain) :
    (l.foldl (fun m x => storeUpdate m x (resolver x)) m) d =
      if d ∈ l then some (resolver d) else m d := by
  induction l generalizing m with
  | nil => simp
  | cons x l ih =>
    simp only [List.foldl_cons, ih, List.mem_cons]
    by_cases hdl : d ∈ l
    · simp [hdl]
    · by_cases hdx : d = x
      · subst hdx
        simp [hdl, storeUpdate]
      · simp [hdl, hdx, storeUpdate]

/-- Evaluation of `batch_query_dns` on a non-empty input: counts and the
final store, expressed without the batch structure. -/
theorem batch_query_dns_eval (prev : Store) (domains : List Domain)
    (bs : ℕ) (resolver : Domain → ResolutionResult) (hne : domains ≠ []) :
    (batch_query_dns prev domains bs resolver).success_count
        = (domains.filter (fun d => (resolver d).success)).length ∧
    (batch_query_dns prev domains bs resolver).total_count = domains.length ∧
    (batch_query_dns prev domains bs resolver).returned
        = some (batch_query_dns prev domains bs resolver).dns_results ∧
    (∀ d, (batch_query_dns prev domains bs resolver).dns_results d
          = if d ∈ domains then some (resolver d) else none) := by
  have hempty : domains.isEmpty = false := by
    cases domains with
    | nil => exact absurd rfl hne
    | cons x l => rfl
  have hrun :
      (chunks bs domains).foldl (runBatch resolver) (0, emptyStore) =
        ((domains.filter (fun d => (resolver d).success)).length,
         domains.foldl (fun m d => storeUpdate m d (resolver d)) emptyStore) := by
    rw [foldl_runBatch, chunks_flatten]
    simp
  refine ⟨?_, ?_, ?_, ?_⟩
  · simp [batch_query_dns, hempty, hrun]
  · simp [batch_query_dns, hempty]
  · simp [batch_query_dns, hempty]
  · intro d
    simp only [batch_query_dns, hempty, Bool.false_eq_true, if_false, hrun]
    rw [storeFold_eval]
    by_cases hd : d ∈ domains
    · simp [hd]
    · simp [hd, emptyStore]

/-- C7: on a non-empty input with a positive batch size,
`batch_query_dns` partitions the input into sequential batches of at most
`batchSize` domains (the batches concatenate back to the input), and
returns `(successCount, totalCount, resultStore)` where `successCount` is
the number of input domains whose resolution succeeded, `totalCount` is
the input size, and the returned store maps every input domain to its
resolution result and nothing else; in particular, the scenario
`["a","b","c"]` with batch size 2 and a resolver succeeding on `"a"`,`"b"`
and failing on `"c"` yields `(2, 3, {a: success, b: success, c: failure})`. -/
theorem batch_query_dns_contract (prev : Store) (domains : List Domain)
    (bs : ℕ) (resolver : Domain → ResolutionResult)
    (hne : domains ≠ []) (hbs : 0 < bs) :
    (batch_query_dns prev domains bs resolver).success_count
        = (domains.filter (fun d => (resolver d).success)).length ∧
    (batch_query_dns prev domains bs resolver).total_count = domains.length ∧
    (batch_query_dns prev domains bs resolver).returned
        = some (batch_query_dns prev domains bs resolver).dns_results ∧
    (∀ d ∈ domains,
        (batch_query_dns prev domains bs resolver).dns_results d
          = some (resolver d)) ∧
    (∀ d, d ∉ domains →
        (batch_query_dns prev domains bs resolver).dns_results d = none) ∧
    (chunks bs domains).flatten = domains ∧
    (∀ ch ∈ chunks bs domains, ch.length ≤ bs) ∧
    (batch_query_dns emptyStore ["a", "b", "c"] 2 res3).success_count = 2 ∧
    (batch_query_dns emptyStore ["a", "b", "c"] 2 res3).total_count = 3 ∧
    (batch_query_dns emptyStore ["a", "b", "c"] 2 res3).dns_results "a"
        = some ⟨"a", true, ["1.2.3.4"], 0, none⟩ ∧
    (batch_query_dns emptyStore ["a", "b", "c"] 2 res3).dns_results "b"
        = some ⟨"b", true, ["1.2.3.4"], 0, none⟩ ∧
    (batch_query_dns emptyStore ["a", "b", "c"] 2 res3).dns_results "c"
        = some ⟨"c", false, [], 0, some "err"⟩ := by
  obtain ⟨h1, h2, h3, h4⟩ := batch_query_dns_eval prev domains bs resolver hne
  obtain ⟨g1, g2, g3, g4⟩ :=
    batch_query_dns_eval emptyStore ["a", "b", "c"] 2 res3 (by decide)
  refine ⟨h1, h2, h3, ?_, ?_, chunks_flatten bs domains,
      chunks_length_le bs hbs domains, ?_, g2, ?_, ?_, ?_⟩
  · intro d hd
    rw [h4 d, if_pos hd]
  · intro d hd
    rw [h4 d, if_neg hd]
  · rw [g1]; decide
  · rw [g4 "a", if_pos (by decide)]; decide
  · rw [g4 "b", if_pos (by decide)]; decide
  · rw [g4 "c", if_pos (by decide)]; decide

/-- Witness for `batch_query_dns_contract` at the C7 scenario input. -/
theorem batch_query_dns_contract_witness :
    (["a", "b", "c"] : List Domain) ≠ [] ∧ 0 < 2 ∧
    (batch_query_dns emptyStore ["a", "b", "c"] 2 res3).success_count
      = ((["a", "b", "c"] : List Domain).filter
          (fun d => (res3 d).success)).length :=
  ⟨by decide, by decide,
   (batch_query_dns_contract emptyStore ["a", "b", "c"] 2 res3
      (by decide) (by decide)).1⟩

/-- C8 counterexample: calling `batch_query_dns` with the empty domain
collection takes the `return 0, 0, None` early exit before the
`self.dns_results = {}` reset, so a `ResolutionResult` left over from a
previous run survives in the store. -/
theorem batch_query_dns_empty_keeps_previous_results :
    (batch_query_dns prevStore [] 2 res3).dns_results "x"
        = some ⟨"x", true, ["9.9.9.9"], 0, none⟩ ∧
    (batch_query_dns prevStore [] 2 res3).returned = none := by
  constructor
  · rfl
  · rfl

/-- C8 (amended): `collect_domains` always clears the result store at the
start of a run, and `batch_query_dns` clears it whenever the domain
collection is non-empty (no entry of the previous store survives: after
the run the store binds exactly the queried domains); but on the empty
collection `batch_query_dns` returns `(0, 0, None)` before the reset and
the previous run's results survive. -/
theorem dns_store_clearing (prev : Store) (domains : List Domain) (bs : ℕ)
    (resolver : Domain → ResolutionResult) (hne : domains ≠ []) :
    (∀ d, d ∉ domains →
        (batch_query_dns prev domains bs resolver).dns_results d = none) ∧
    (∀ start d, (initConfig start).cs.dns_results d = none) ∧
    (∀ (p : Store), (batch_query_dns p [] bs resolver).dns_results = p) := by
  have hempty : domains.isEmpty = false := by
    cases domains with
    | nil => exact absurd rfl hne
    | cons x l => rfl
  refine ⟨?_, fun start d => rfl, fun p => rfl⟩
  intro d hd
  simp only [batch_query_dns, hempty, Bool.false_eq_true, if_false]
  rw [foldl_runBatch, chunks_flatten]
  simp only
  rw [storeFold_eval]
  simp [hd, emptyStore]

/-- Witness for `dns_store_clearing`: after querying `["a"]` the domain
`"z"` has no binding even though the previous store bound it. -/
theorem dns_store_clearing_witness :
    (["a"] : List Domain) ≠ [] ∧
    (batch_query_dns prevStore ["a"] 2 res3).dns_results "z" = none :=
  ⟨by decide,
   (dns_store_clearing prevStore ["a"] 2 res3 (by decide)).1 "z" (by decide)⟩

/-! ## Tuning harness (`run_tests`): claim C9 -/

/-- C9: `run_tests` is greedy coordinate ascent — each parameter range is
handled in turn, and the value committed for a parameter (before the next
parameter is processed) is the candidate whose trial scored highest under
`queries_per_second * success_rate`; in particular, for a single parameter
with a two-candidate range where the second candidate scores strictly
higher, the resulting parameter set holds the second candidate. -/
theorem run_tests_greedy_argmax (trial : Params → ℚ × ℚ) (base : Params)
    (p : String) (v1 v2 : ℚ)
    (h : score (test_parameter trial base p v1)
          < score (test_parameter trial base p v2)) :
    run_tests trial [(p, [v1, v2])] base p = v2 ∧
    (∀ (q : String) (vs : List ℚ) (rest : List (String × List ℚ)) (b : Params),
        run_tests trial ((q, vs) :: rest) b
          = run_tests trial rest (select_best trial b q vs)) := by
  constructor
  · simp only [run_tests, List.foldl_cons, List.foldl_nil, select_best,
      List.map_cons, List.map_nil, pymax, updateParam]
    rw [if_pos h]
    simp [test_parameter]
  · intro q vs rest b
    rfl

/-- Witness for `run_tests_greedy_argmax`: with throughput equal to the
candidate value and success rate 1, candidate 2 beats candidate 1 and is
selected. -/
theorem run_tests_greedy_argmax_witness :
    score (test_parameter trial0 base0 "p" 1)
        < score (test_parameter trial0 base0 "p" 2) ∧
    run_tests trial0 [("p", [1, 2])] base0 "p" = 2 :=
  ⟨by norm_num [score, test_parameter, trial0, updateParam],
   (run_tests_greedy_argmax trial0 base0 "p" 1 2
      (by norm_num [score, test_parameter, trial0, updateParam])).1⟩

/-! ## Crawl engine: invariants for claims C1, C2, C3 -/

/-- Unfolding `workerStep` for an out-of-range index. -/
theorem workerStep_oob (env : FetchEnv) (c : Config) (i : ℕ)
    (h : c.workers[i]? = none) : workerStep env c i = c := by
  unfold workerStep
  rw [h]

/-- Unfolding `workerStep` at the visited-membership guard. -/
theorem workerStep_atCheck (env : FetchEnv) (c : Config) (i : ℕ) (dom : Domain)
    (h : c.workers[i]? = some ⟨dom, .atCheck⟩) :
    workerStep env c i =
      if dom ∈ c.cs.visited then
        { c with workers := c.workers.set i ⟨dom, .finished⟩ }
      else
        { c with workers := c.workers.set i ⟨dom, .toBody⟩ } := by
  unfold workerStep
  rw [h]

/-- Unfolding `workerStep` at the visited-insert + fetch action. -/
theorem workerStep_toBody (env : FetchEnv) (c : Config) (i : ℕ) (dom : Domain)
    (h : c.workers[i]? = some ⟨dom, .toBody⟩) :
    workerStep env c i =
      { cs := bodyEnter env c.cs dom
        workers := c.workers.set i ⟨dom, .atLock (linksOf env dom)⟩ } := by
  unfold workerStep
  rw [h]

/-- Unfolding `workerStep` at the locked section. -/
theorem workerStep_atLock (env : FetchEnv) (c : Config) (i : ℕ) (dom : Domain)
    (links : Finset Domain) (h : c.workers[i]? = some ⟨dom, .atLock links⟩) :
    workerStep env c i =
      { cs := lockSection c.cs dom links
        workers := c.workers.set i ⟨dom, .finished⟩ } := by
  unfold workerStep
  rw [h]

/-- Unfolding `workerStep` for an already finished worker. -/
theorem workerStep_finished (env : FetchEnv) (c : Config) (i : ℕ) (dom : Domain)
    (h : c.workers[i]? = some ⟨dom, .finished⟩) : workerStep env c i = c := by
  unfold workerStep
  rw [h]

/-- Replacing a worker's status (keeping its domain) preserves
domain-distinctness of the live batch. -/
theorem distinctDoms_set (l : List Worker) (i : ℕ) (hi : i < l.length)
    (w' : Worker) (hdom : w'.dom = l[i].dom) (hD : DistinctDoms l) :
    DistinctDoms (l.set i w') := by
  intro a b ha hb hab
  rw [List.length_set] at ha hb
  rw [List.getElem_set, List.getElem_set]
  split_ifs with h1 h2 h2
  · exact absurd (h1 ▸ h2) hab
  · rw [hdom]
    exact h1 ▸ hD i b hi hb h2
  · rw [hdom]
    exact h2 ▸ hD a i ha hi (fun hEq => h1 hEq.symm)
  · exact hD a b ha hb hab

/-- The invariant holds in the initial configuration of a crawl. -/
theorem inv_init (start : Domain) : Inv (initConfig start) := by
  refine ⟨?_, ?_, ?_, ?_, ?_, ?_⟩
  · intro i j hi hj hij
    simp [initConfig] at hi
  · intro d hd
    simp [initConfig] at hd
  · intro d
    exact Nat.zero_le 1
  · intro d
    simp [initConfig]
  · intro i hi
    simp [initConfig] at hi
  · intro i hi
    simp [initConfig] at hi

/-- One worker step preserves the crawl invariant, whatever the
interleaving. -/
theorem workerStep_inv (env : FetchEnv) (c : Config) (i : ℕ)
    (hinv : Inv c) : Inv (workerStep env c i) := by
  obtain ⟨hD, hCV, hB1, hVB, hTB, hAL⟩ := hinv
  cases hw : c.workers[i]? with
  | none => rw [workerStep_oob env c i hw]; exact ⟨hD, hCV, hB1, hVB, hTB, hAL⟩
  | some w =>
    obtain ⟨hi, hwi⟩ := List.getElem?_eq_some.mp hw
    obtain ⟨dom, status⟩ := w
    have hdomi : dom = c.workers[i].dom := by rw [hwi]
    have hsti : c.workers[i].status = status := by rw [hwi]
    cases status with
    | atCheck =>
      rw [workerStep_atCheck env c i dom hw]
      by_cases hv : dom ∈ c.cs.visited
      · rw [if_pos hv]
        refine ⟨distinctDoms_set c.workers i hi _ hdomi hD, hCV, hB1, hVB, ?_, ?_⟩
        · intro k hk hst
          rw [List.length_set] at hk
          rw [List.getElem_set] at hst ⊢
          by_cases hik : i = k
          · rw [if_pos hik] at hst
            simp at hst
          · rw [if_neg hik] at hst ⊢
            exact hTB k hk hst
        · intro k hk links hst
          rw [List.length_set] at hk
          rw [List.getElem_set] at hst ⊢
          by_cases hik : i = k
          · rw [if_pos hik] at hst
            simp at hst
          · rw [if_neg hik] at hst ⊢
            exact hAL k hk links hst
      · rw [if_neg hv]
        refine ⟨distinctDoms_set c.workers i hi _ hdomi hD, hCV, hB1, hVB, ?_, ?_⟩
        · intro k hk hst
          rw [List.length_set] at hk
          rw [List.getElem_set] at hst ⊢
          by_cases hik : i = k
          · rw [if_pos hik]
            exact hv
          · rw [if_neg hik] at hst ⊢
            exact hTB k hk hst
        · intro k hk links hst
          rw [List.length_set] at hk
          rw [List.getElem_set] at hst ⊢
          by_cases hik : i = k
          · rw [if_pos hik] at hst
            simp at hst
          · rw [if_neg hik] at hst ⊢
            exact hAL k hk links hst
    | toBody =>
      rw [workerStep_toBody env c i dom hw]
      have hnv : dom ∈ c.cs.visited → False := by
        rw [hdomi]
        exact hTB i hi hsti
      have hcnt : c.cs.bodyCount dom = 0 := by
        by_contra hne
        exact hnv ((hVB dom).mpr (Nat.one_le_iff_ne_zero.mpr hne))
      refine ⟨distinctDoms_set c.workers i hi _ hdomi hD, ?_, ?_, ?_, ?_, ?_⟩
      · exact hCV.trans (Finset.subset_insert dom c.cs.visited)
      · intro d
        simp only [bodyEnter]
        by_cases hd : d = dom
        · subst hd
          simp [hcnt]
        · simp only [if_neg hd]
          exact hB1 d
      · intro d
        simp only [bodyEnter, Finset.mem_insert]
        by_cases hd : d = dom
        · subst hd
          simp [hcnt]
        · simp only [if_neg hd, hd, false_or]
          exact hVB d
      · intro k hk hst
        simp only [bodyEnter, Finset.mem_insert]
        rw [List.length_set] at hk
        rw [List.getElem_set] at hst ⊢
        by_cases hik : i = k
        · rw [if_pos hik] at hst
          simp at hst
        · rw [if_neg hik] at hst ⊢
          push_neg
          exact ⟨fun hEq => hD k i hk hi (fun h => hik h.symm) (hEq.trans hdomi),
                 hTB k hk hst⟩
      · intro k hk links hst
        simp only [bodyEnter, Finset.mem_insert]
        rw [List.length_set] at hk
        rw [List.getElem_set] at hst ⊢
        by_cases hik : i = k
        · rw [if_pos hik]
          left
          rfl
        · rw [if_neg hik] at hst ⊢
          right
          exact hAL k hk links hst
    | atLock links =>
      rw [workerStep_atLock env c i dom links hw]
      have hvd : dom ∈ c.cs.visited := by
        rw [hdomi]
        exact hAL i hi links hsti
      refine ⟨distinctDoms_set c.workers i hi _ hdomi hD, ?_, hB1, hVB, ?_, ?_⟩
      · simp only [lockSection]
        exact Finset.insert_subset hvd hCV
      · intro k hk hst
        simp only [lockSection]
        rw [List.length_set] at hk
        rw [List.getElem_set] at hst ⊢
        by_cases hik : i = k
        · rw [if_pos hik] at hst
          simp at hst
        · rw [if_neg hik] at hst ⊢
          exact hTB k hk hst
      · intro k hk links2 hst
        simp only [lockSection]
        rw [List.length_set] at hk
        rw [List.getElem_set] at hst ⊢
        by_cases hik : i = k
        · rw [if_pos hik] at hst
          simp at hst
        · rw [if_neg hik] at hst ⊢
          exact hAL k hk links2 hst
    | finished =>
      rw [workerStep_finished env c i dom hw]
      exact ⟨hD, hCV, hB1, hVB, hTB, hAL⟩

/-- Dispatching a duplicate-free batch preserves the crawl invariant. -/
theorem dispatchStep_inv (c : Config) (nb : List Domain) (hnodup : nb.Nodup)
    (hinv : Inv c) : Inv (dispatchStep c nb) := by
  obtain ⟨hD, hCV, hB1, hVB, hTB, hAL⟩ := hinv
  refine ⟨?_, hCV, hB1, hVB, ?_, ?_⟩
  · intro a b ha hb hab
    simp only [dispatchStep, List.length_map] at ha hb
    simp only [dispatchStep, List.getElem_map]
    intro hEq
    exact hab (hnodup.getElem_inj_iff.mp hEq)
  · intro k hk hst
    simp only [dispatchStep, List.length_map] at hk
    simp only [dispatchStep, List.getElem_map] at hst
    cases hst
  · intro k hk links hst
    simp only [dispatchStep, List.length_map] at hk
    simp only [dispatchStep, List.getElem_map] at hst
    cases hst

/-- Every reachable configuration of a crawl run satisfies the
invariant. -/
theorem reach_inv {env : FetchEnv} {target threads : ℕ} {start : Domain}
    {c : Config} (h : Reach env target threads start c) : Inv c := by
  induction h with
  | init => exact inv_init start
  | step hr hs ih =>
    cases hs with
    | worker i => exact workerStep_inv env _ i ih
    | dispatch nb hdone hne htar hnodup hsub hlen =>
      exact dispatchStep_inv _ nb hnodup ih

/-- The dispatch of the singleton batch `["a"]` from the initial
configuration is a legal step of the engine loop. -/
theorem step_cfg0_cfg1 : Step env0 10 5 cfg0 cfg1 :=
  Step.dispatch cfg0 ["a"]
    (by intro w hw; simp [cfg0, initConfig] at hw)
    (by exact ⟨"a", by simp [cfg0, initConfig]⟩)
    (by simp [cfg0, initConfig])
    (by simp)
    (by intro d hd; simp at hd; simp [hd, cfg0, initConfig])
    (by simp [cfg0, initConfig])

/-- The final configuration of the concrete single-domain run is
reachable. -/
theorem reach_cfg4 : Reach env0 10 5 "a" cfg4 :=
  Reach.step
    (Reach.step
      (Reach.step (Reach.step Reach.init step_cfg0_cfg1) (Step.worker cfg1 0))
      (Step.worker cfg2 0))
    (Step.worker cfg3 0)

/-- Any domain newly present in `domains_to_visit` after a worker step was
absent from `visited_domains` when the merge executed. -/
theorem workerStep_new_toVisit (env : FetchEnv) (c : Config) (i : ℕ)
    (d : Domain) (hd : d ∈ (workerStep env c i).cs.toVisit)
    (hnd : d ∉ c.cs.toVisit) : d ∉ c.cs.visited := by
  cases hw : c.workers[i]? with
  | none =>
    rw [workerStep_oob env c i hw] at hd
    exact absurd hd hnd
  | some w =>
    obtain ⟨dom, status⟩ := w
    cases status with
    | atCheck =>
      rw [workerStep_atCheck env c i dom hw] at hd
      by_cases hv : dom ∈ c.cs.visited
      · rw [if_pos hv] at hd
        exact absurd hd hnd
      · rw [if_neg hv] at hd
        exact absurd hd hnd
    | toBody =>
      rw [workerStep_toBody env c i dom hw] at hd
      exact absurd hd hnd
    | atLock links =>
      rw [workerStep_atLock env c i dom links hw] at hd
      simp only [lockSection, Finset.mem_union, Finset.mem_filter] at hd
      rcases hd with hd | ⟨hmem, hnv⟩
      · exact absurd hd hnd
      · exact hnv
    | finished =>
      rw [workerStep_finished env c i dom hw] at hd
      exact absurd hd hnd

/-- C1 (amended): in every run of `collect_domains` — under any interleaving of the
worker pool — the body of `process_domain` (visited-insert, fetch,
collect) is entered at most once per domain: the batch barrier of the
engine loop means a re-discovered domain is only re-dispatched after its
first processor has already inserted it into `visited_domains`, so the
guard stops it; moreover a domain is in `visited_domains` exactly when its
body has run, so the size of `visited` equals the number of distinct
domains ever marked visited (no duplicate processing). -/
theorem crawl_body_at_most_once (env : FetchEnv) (target threads : ℕ)
    (start : Domain) (c : Config)
    (h : Reach env target threads start c) :
    (∀ d, c.cs.bodyCount d ≤ 1) ∧
    (∀ d, d ∈ c.cs.visited ↔ 1 ≤ c.cs.bodyCount d) :=
  ⟨(reach_inv h).2.2.1, (reach_inv h).2.2.2.1⟩

/-- Witness for `crawl_body_at_most_once`: the final configuration of the
concrete single-domain run is reachable and its seed was processed at most
(and in fact exactly) once. -/
theorem crawl_body_at_most_once_witness :
    Reach env0 10 5 "a" cfg4 ∧ cfg4.cs.bodyCount "a" ≤ 1 :=
  ⟨reach_cfg4, (crawl_body_at_most_once env0 10 5 "a" cfg4 reach_cfg4).1 "a"⟩

/-- C3: at every observable point of a crawl run the collected set is a
subset of the visited set, and every step that adds a domain to
`domains_to_visit` only adds domains that are absent from
`visited_domains` at the moment of the merge. -/
theorem crawl_frontier_invariants (env : FetchEnv) (target threads : ℕ)
    (start : Domain) (c : Config)
    (h : Reach env target threads start c) :
    c.cs.collected ⊆ c.cs.visited ∧
    (∀ c', Step env target threads c c' →
        ∀ d, d ∈ c'.cs.toVisit → d ∉ c.cs.toVisit → d ∉ c.cs.visited) := by
  refine ⟨(reach_inv h).2.1, ?_⟩
  intro c' hs d hd hnd
  cases hs with
  | worker i => exact workerStep_new_toVisit env c i d hd hnd
  | dispatch nb hdone hne htar hnodup hsub hlen =>
    simp only [dispatchStep, Finset.mem_sdiff] at hd
    exact absurd hd.1 hnd

/-- Witness for `crawl_frontier_invariants` at the concrete run. -/
theorem crawl_frontier_invariants_witness :
    Reach env0 10 5 "a" cfg4 ∧ cfg4.cs.collected ⊆ cfg4.cs.visited :=
  ⟨reach_cfg4, (crawl_frontier_invariants env0 10 5 "a" cfg4 reach_cfg4).1⟩

/-- C2 (code bug evidence): in the concrete run whose only fetch raises,
the crawl still adds the domain to `collected_domains` —
`get_links_from_domain` swallows the fetch exception and returns an empty
link set, so `process_domain`'s own `except` never fires and the
unconditional `self.collected_domains.add(domain)` runs; the failure is
visible only in the stored `dns_results` record.  The claim (and the
intent recorded in the code comment "record successfully visited domains")
says a fetch-failed domain is excluded from `collected`. -/
theorem fetch_failure_still_collected :
    Reach env0 10 5 "a" cfg4 ∧
    cfg4.cs.dns_results "a" = some ⟨"a", false, [], 0, some "boom"⟩ ∧
    "a" ∈ cfg4.cs.collected ∧
    "a" ∈ cfg4.cs.visited ∧
    allFinished cfg4 := by
  refine ⟨reach_cfg4, ?_, ?_, ?_, ?_⟩
  · rfl
  · decide
  · decide
  · intro w hw
    simp [cfg4, cfg3, cfg2, cfg1, cfg0, initConfig, dispatchStep, workerStep,
      env0, bodyEnter, lockSection, linksOf] at hw
    simp [hw]

/-- The race run is a legal execution: every configuration up to the
second submission of `"a"` (and its guard rejection) is reachable. -/
theorem reach_ecfg13 : Reach env1 10 5 "s" ecfg13 := by
  have h1 : Step env1 10 5 ecfg0 ecfg1 :=
    Step.dispatch ecfg0 ["s"]
      (by intro w hw; simp [ecfg0, initConfig] at hw)
      (by exact ⟨"s", by simp [ecfg0, initConfig]⟩)
      (by simp [ecfg0, initConfig])
      (by simp)
      (by intro d hd; simp at hd; simp [hd, ecfg0, initConfig])
      (by simp [ecfg0, initConfig])
  have h5 : Step env1 10 5 ecfg4 ecfg5 :=
    Step.dispatch ecfg4 ["a", "b"] (by unfold allFinished; decide) (by decide)
      (by decide) (by decide) (by decide) (by decide)
  have h12 : Step env1 10 5 ecfg11 ecfg12 :=
    Step.dispatch ecfg11 ["a"] (by unfold allFinished; decide) (by decide)
      (by decide) (by decide) (by decide) (by decide)
  exact Reach.step
    (Reach.step
      (Reach.step
        (Reach.step
          (Reach.step
            (Reach.step
              (Reach.step
                (Reach.step
                  (Reach.step
                    (Reach.step
                      (Reach.step
                        (Reach.step (Reach.step Reach.init h1)
                          (Step.worker ecfg1 0))
                        (Step.worker ecfg2 0))
                      (Step.worker ecfg3 0))
                    h5)
                  (Step.worker ecfg5 0))
                (Step.worker ecfg6 1))
              (Step.worker ecfg7 1))
            (Step.worker ecfg8 1))
          (Step.worker ecfg9 0))
        (Step.worker ecfg10 0))
      h12)
    (Step.worker ecfg12 0)

/-- C1 counterexample: the pop from `domains_to_visit` and the insertion
into `visited_domains` are not a single atomic step.  In the race run the
already-visited domain `"a"` is back in `domains_to_visit` (merged by the
worker for `"b"` during the race window of the worker for `"a"`), and the
coordinator then legally pops it and submits it to `process_domain` a
second time — a run that could not exist if pop + visited-insert were one
atomic step.  The body still runs only once (the guard rejects the second
submission), as the amended claim states. -/
theorem crawl_pop_insert_not_atomic :
    Reach env1 10 5 "s" ecfg11 ∧
    "a" ∈ ecfg11.cs.visited ∧
    "a" ∈ ecfg11.cs.toVisit ∧
    Step env1 10 5 ecfg11 ecfg12 ∧
    ecfg12.workers = [⟨"a", .atCheck⟩] ∧
    ecfg11.cs.bodyCount "a" = 1 ∧
    ecfg13.cs.bodyCount "a" = 1 := by
  refine ⟨?_, by decide, by decide,
    Step.dispatch ecfg11 ["a"] (by unfold allFinished; decide) (by decide)
      (by decide) (by decide) (by decide) (by decide),
    by decide, by decide, by decide⟩
  have h1 : Step env1 10 5 ecfg0 ecfg1 :=
    Step.dispatch ecfg0 ["s"]
      (by intro w hw; simp [ecfg0, initConfig] at hw)
      (by exact ⟨"s", by simp [ecfg0, initConfig]⟩)
      (by simp [ecfg0, initConfig])
      (by simp)
      (by intro d hd; simp at hd; simp [hd, ecfg0, initConfig])
      (by simp [ecfg0, initConfig])
  have h5 : Step env1 10 5 ecfg4 ecfg5 :=
    Step.dispatch ecfg4 ["a", "b"] (by unfold allFinished; decide) (by decide)
      (by decide) (by decide) (by decide) (by decide)
  exact Reach.step
    (Reach.step
      (Reach.step
        (Reach.step
          (Reach.step
            (Reach.step
              (Reach.step
                (Reach.step
                  (Reach.step
                    (Reach.step (Reach.step Reach.init h1)
                      (Step.worker ecfg1 0))
                    (Step.worker ecfg2 0))
                  (Step.worker ecfg3 0))
                h5)
              (Step.worker ecfg5 0))
            (Step.worker ecfg6 1))
          (Step.worker ecfg7 1))
        (Step.worker ecfg8 1))
      (Step.worker ecfg9 0))
    (Step.worker ecfg10 0)

end DNSCache